import Mathlib

/-!
Verification of the prerender orchestrator (`prerender.ts`) and the client page
resolution (`getPage.ts`) of vite-plugin-ssr.

The JavaScript source is shallowly embedded: JavaScript values are modelled by
the inductive `JSVal`, plain objects by association lists (`Obj`), fallible
code by `Except Err`, and the collaborators that are imported from modules not
included in the provided sources (route resolver, page renderer, file-url
helper, ...) are either modelled from the spec (with a doc comment saying so)
or passed as explicit function parameters (`Oracles`).

Concurrency: the orchestrator runs its hook phase and its render phase under
`Promise.all`; those phases are sequentialized here in list order (a valid
schedule of the single-threaded event loop).  The disk-write phase, whose
ordering is the subject of a temporal claim, is modelled relationally
(`WritePhaseTrace`): the `for ... await` loop concatenates per-document traces,
and the per-document `Promise.all` admits every interleaving of the individual
file writes.
-/

namespace VPS

/-- A JavaScript runtime value, as far as the embedded code inspects one. -/
inductive JSVal where
  | vstr (s : String)
  | vnum (n : Int)
  | vbool (b : Bool)
  | vnull
  | vundefined
  | vobj (fields : List (String × JSVal))
  | varr (elems : List JSVal)

/-- A plain JavaScript object: an insertion-ordered association list. -/
abbrev Obj := List (String × JSVal)

/-- First-match association-list lookup (JavaScript property access). -/
def assocLookup {β : Type} : List (String × β) → String → Option β
  | [], _ => none
  | (k, v) :: rest, key => if k == key then some v else assocLookup rest key

/-- JavaScript property assignment `o[key] = val`: overwrite in place when the
key exists (keeping its position), otherwise append. -/
def assocSet {β : Type} (l : List (String × β)) (key : String) (val : β) :
    List (String × β) :=
  if (assocLookup l key).isSome then
    l.map (fun p => if p.1 == key then (key, val) else p)
  else l ++ [(key, val)]

/-- Object spread `\x7b...a, ...b\x7d`: keys of `b` override same-named keys of `a`. -/
def objMerge (a b : Obj) : Obj :=
  a.filter (fun p => (assocLookup b p.1).isNone) ++ b

/-- Whether the first list is an initial segment of the second. -/
def listIsPre : List Char → List Char → Bool
  | [], _ => true
  | _ :: _, [] => false
  | c :: cs, d :: ds => (c == d) && listIsPre cs ds

/-- JavaScript `s.startsWith(pre)`, on the character lists of the strings. -/
def strStartsWith (s pre : String) : Bool :=
  listIsPre pre.data s.data

/-- Splits a character list at every occurrence of `sep` (the semantics of
`String.split` on a one-character separator). -/
def splitOnChar (sep : Char) : List Char → List (List Char)
  | [] => [[]]
  | c :: cs =>
    let rest := splitOnChar sep cs
    if c == sep then [] :: rest
    else
      match rest with
      | [] => [[c]]
      | seg :: segs => (c :: seg) :: segs

/-- Whether a path segment is a `:name` route parameter. -/
def segStartsColon : List Char → Bool
  | [] => false
  | c :: _ => c == ':'

/-- Property read defaulting to `undefined` (JavaScript `o.key`). -/
def getProp (fields : Obj) (key : String) : JSVal :=
  (assocLookup fields key).getD .vundefined

/-- JavaScript truthiness. -/
def truthy : JSVal → Bool
  | .vstr s => !(s == "")
  | .vnum n => !(n == 0)
  | .vbool b => b
  | .vnull => false
  | .vundefined => false
  | .vobj _ => true
  | .varr _ => true

/-- JavaScript `a || b`. -/
def jsOr (a b : JSVal) : JSVal :=
  if truthy a then a else b

/-- Modelled from the spec: `isPlainObject` lives in `./utils`, which is not in
the provided sources.  A plain object is an object literal; strings, numbers,
null, undefined and arrays are not plain objects. -/
def isPlainObject : JSVal → Bool
  | .vobj _ => true
  | _ => false

/-- The errors the embedded code can raise.  Each `assertUsage` site of the
source gets its own constructor carrying the data interpolated into its
message; internal `assert` invariant failures are kept distinct, since the spec
distinguishes UsageError from internal errors. -/
inductive Err where
  | usageManifestMissing (pluginManifestPath : String)
  | usageVersionMismatch (buildVersion runningVersion : String)
  | usageInvalidPrerenderValue (sourceFile : String)
  | usageUrlMissing (sourceFile : String)
  | usageUrlWrongType (sourceFile : String)
  | usageUrlNoSlash (sourceFile url : String)
  | usageUnexpectedKey (sourceFile key : String)
  | usageInvalidPageContext (sourceFile : String)
  | usageRouteMismatch (sourceFile url : String)
  | usageNoPageExport (filePath : String)
  | internalAssertion

/-- Whether an error is a UsageError (raised by `assertUsage`), as opposed to an
internal `assert` failure. -/
def isUsageError : Err → Bool
  | .internalAssertion => false
  | _ => true

/-- Whether an `Except` computation succeeded. -/
def exceptOk {α : Type} : Except Err α → Bool
  | .ok _ => true
  | .error _ => false

/-- A normalized prerender entry: `\x7b url, pageContext \x7d` where `pageContext` is
`none` for the JavaScript `null` (covering both an omitted key and an explicit
`null`) and `some` for a plain object. -/
structure NormEntry where
  url : String
  pageContext : Option Obj

/-- Embeds the inner `normalize` of `normalizePrerenderResult` (prerender.ts):
a bare string is returned as-is with `pageContext: null`; otherwise the value
must be a plain object whose `url` is a string starting with `/`, whose keys
are only `url` and `pageContext`, and whose `pageContext` (defaulted to `null`
when omitted) is `null` or a plain object. -/
def normalizePrerenderElement (sourceFile : String) (v : JSVal) :
    Except Err NormEntry :=
  match v with
  | .vstr s => .ok ⟨s, none⟩
  | .vobj fields =>
    match assocLookup fields "url" with
    | none => .error (.usageUrlMissing sourceFile)
    | some uv =>
      match uv with
      | .vstr u =>
        if !(strStartsWith u "/") then .error (.usageUrlNoSlash sourceFile u)
        else
          match (fields.map Prod.fst).find?
              (fun k => !(k == "url" || k == "pageContext")) with
          | some k => .error (.usageUnexpectedKey sourceFile k)
          | none =>
            match assocLookup fields "pageContext" with
            | none => .ok ⟨u, none⟩
            | some .vnull => .ok ⟨u, none⟩
            | some (.vobj pc) => .ok ⟨u, some pc⟩
            | some _ => .error (.usageInvalidPageContext sourceFile)
      | _ => .error (.usageUrlWrongType sourceFile)
  | _ => .error (.usageInvalidPrerenderValue sourceFile)

/-- Normalizes every element of a list, stopping at the first failure (the
source's `Array.prototype.map` over a throwing `normalize`). -/
def normalizeList (sourceFile : String) : List JSVal → Except Err (List NormEntry)
  | [] => .ok []
  | x :: xs =>
    match normalizePrerenderElement sourceFile x with
    | .error e => .error e
    | .ok a =>
      match normalizeList sourceFile xs with
      | .error e => .error e
      | .ok as => .ok (a :: as)

/-- Embeds `normalizePrerenderResult` (prerender.ts): an array is normalized
element-wise, anything else is normalized as a single element. -/
def normalizePrerenderResult (prerenderResult : JSVal) (sourceFile : String) :
    Except Err (List NormEntry) :=
  match prerenderResult with
  | .varr xs => normalizeList sourceFile xs
  | _ =>
    match normalizePrerenderElement sourceFile prerenderResult with
    | .error e => .error e
    | .ok a => .ok [a]

/-- One record of the orchestrator's `prerenderData` accumulator. -/
structure DataEntry where
  prerenderSourceFile : String
  pageContext : Obj
  noPrenderPageContext : Bool

/-- The `prerenderData` object, keyed by URL in insertion order. -/
abbrev PrerenderData := List (String × DataEntry)

/-- Embeds the body of `result.forEach(...)` in `prerender` (prerender.ts,
lines 200-218) for one normalized entry.  The guard reproduces the source
verbatim: it tests the literal key `'url' in prerenderData`, not the `url`
variable.  The two `internalAssertion` branches correspond to the source's
`assert(url.startsWith('/'))` and to the TypeError a property write on a
missing record would raise. -/
def registerEntry (sourceFile : String) (d : PrerenderData) (e : NormEntry) :
    Except Err PrerenderData :=
  if !(strStartsWith e.url "/") then .error .internalAssertion
  else
    let d1 :=
      if (assocLookup d "url").isNone then
        assocSet d e.url ⟨sourceFile, [], true⟩
      else d
    match e.pageContext with
    | none => .ok d1
    | some pc =>
      match assocLookup d1 e.url with
      | none => .error .internalAssertion
      | some cur =>
        .ok (assocSet d1 e.url
          ⟨cur.prerenderSourceFile, objMerge cur.pageContext pc, false⟩)

/-- Folds `registerEntry` over the normalized entries of one hook result. -/
def registerEntries (sourceFile : String) :
    PrerenderData → List NormEntry → Except Err PrerenderData
  | d, [] => .ok d
  | d, e :: es =>
    match registerEntry sourceFile d e with
    | .error err => .error err
    | .ok d2 => registerEntries sourceFile d2 es

/-- One page's static-enumeration hook: its source file and the raw value the
hook returned when invoked. -/
structure Hook where
  pageId : String
  filePath : String
  result : JSVal

/-- Builds `prerenderData` from all hooks, in hook order (a sequentialization
of the source's `Promise.all`). -/
def buildPrerenderDataGo : PrerenderData → List Hook → Except Err PrerenderData
  | d, [] => .ok d
  | d, hk :: hks =>
    match normalizePrerenderResult hk.result hk.filePath with
    | .error e => .error e
    | .ok entries =>
      match registerEntries hk.filePath d entries with
      | .error e => .error e
      | .ok d2 => buildPrerenderDataGo d2 hks

/-- Entry point of the hook phase of `prerender`. -/
def buildPrerenderData (hooks : List Hook) : Except Err PrerenderData :=
  buildPrerenderDataGo [] hooks

/-- Result of the route resolver for a matching URL. -/
structure RouteResult where
  pageId : String
  pageContextAddendum : Obj

/-- Result of `prerenderPage` (renderPage.node, not in the provided sources). -/
structure RenderedPage where
  htmlDocument : String
  pageContextSerialized : Option String

/-- Modelled from the spec: the collaborators `route` (route.shared),
`prerenderPage` and `renderStatic404Page` (renderPage.node), the
filesystem-route derivation `getFilesystemRoute` and the error-page test
`isErrorPage` (route.shared) are imported from modules that are not in the
provided sources.  The orchestrator only depends on their interfaces
(spec sections 4.1 and 4.4), so they are passed as explicit functions. -/
structure Oracles where
  route : String → List String → Obj → Option RouteResult
  prerenderPageFn : String → Obj → String → Bool → Bool → RenderedPage
  renderStatic404 : Option String
  fsRoute : String → List String → String
  isErrorPageFn : String → Bool

/-- The arguments of one `prerenderPage` invocation, recorded so that theorems
can speak about the flag the orchestrator passes. -/
structure RenderCall where
  pageId : String
  pageContext : Obj
  url : String
  usePrerenderPageContext : Bool
  pageContextNeeded : Bool

/-- A produced document, exactly the source's `HtmlDocument` record. -/
structure HtmlDocument where
  url : String
  htmlDocument : String
  pageContextSerialized : Option String
  doNotCreateExtraDirectory : Bool

/-- Embeds the render-hook-URLs phase of `prerender` (prerender.ts, lines
226-244), sequentialized in `Object.entries` order: route each URL (a miss is
the `usageRouteMismatch` UsageError naming the recorded hook source file),
invoke `prerenderPage` with the merged pageContext and the
`!noPrenderPageContext` flag, and record the rendered page ids. -/
def renderHookUrlsGo (o : Oracles) (pageContextNeeded : Bool)
    (allPageIds : List String) :
    PrerenderData → Except Err (List HtmlDocument × List RenderCall × List String)
  | [] => .ok ([], [], [])
  | (url, e) :: rest =>
    match o.route url allPageIds e.pageContext with
    | none => .error (.usageRouteMismatch e.prerenderSourceFile url)
    | some rr =>
      let mergedPageContext := objMerge e.pageContext rr.pageContextAddendum
      let rp := o.prerenderPageFn rr.pageId mergedPageContext url
        (!e.noPrenderPageContext) pageContextNeeded
      match renderHookUrlsGo o pageContextNeeded allPageIds rest with
      | .error err => .error err
      | .ok (docs, calls, ids) =>
        .ok (⟨url, rp.htmlDocument, rp.pageContextSerialized, false⟩ :: docs,
          ⟨rr.pageId, mergedPageContext, url, !e.noPrenderPageContext,
            pageContextNeeded⟩ :: calls,
          rr.pageId :: ids)

/-- A page's explicit route definition, as `loadPageRoutes` reports it. -/
inductive PageRouteVal where
  | routeString (s : String)
  | routeFunction

/-- A warning emitted by `assertWarning`. -/
inductive PWarning where
  | nonStaticRoute (pageId : String)

/-- Modelled from the spec: `isStaticRoute` lives in `route.shared`, which is
not in the provided sources.  Per spec sections 4.1 and 6, a Route String is
`/literal/:param` with one capture per path segment; a static route is a
literal, non-parameterized string, i.e. no segment is a `:name` parameter. -/
def isStaticRoute (routeString : String) : Bool :=
  (splitOnChar '/' routeString.data).all (fun seg => !(segStartsColon seg))

/-- Embeds the body of the static-route phase of `prerender` (prerender.ts,
lines 250-280) for one page: no explicit route definition means the page is
rendered at its filesystem route; a static route string is rendered at that
string; any other route (parameterized string or route function) is skipped
with a warning that `assertWarning(partial, ...)` suppresses exactly when the
`partial` option is true. -/
def renderStaticPage (o : Oracles) (pageContextNeeded par : Bool)
    (allPageIds : List String) (pageRoutes : List (String × PageRouteVal))
    (pageId : String) :
    Option (RenderCall × HtmlDocument) × List PWarning :=
  let pageContext : Obj := [("routeParams", .vobj [])]
  match assocLookup pageRoutes pageId with
  | none =>
    let url := o.fsRoute pageId allPageIds
    let rp := o.prerenderPageFn pageId pageContext url false pageContextNeeded
    (some (⟨pageId, pageContext, url, false, pageContextNeeded⟩,
      ⟨url, rp.htmlDocument, rp.pageContextSerialized, false⟩), [])
  | some (.routeString r) =>
    if isStaticRoute r then
      let rp := o.prerenderPageFn pageId pageContext r false pageContextNeeded
      (some (⟨pageId, pageContext, r, false, pageContextNeeded⟩,
        ⟨r, rp.htmlDocument, rp.pageContextSerialized, false⟩), [])
    else (none, if par then [] else [.nonStaticRoute pageId])
  | some .routeFunction => (none, if par then [] else [.nonStaticRoute pageId])

/-- The static-route phase applies `renderStaticPage` to every page id that the
hook phase did not already render. -/
def staticPhaseResults (o : Oracles) (pageContextNeeded par : Bool)
    (allPageIds : List String) (pageRoutes : List (String × PageRouteVal))
    (renderedIds : List String) :
    List (Option (RenderCall × HtmlDocument) × List PWarning) :=
  (allPageIds.filter (fun p => !(renderedIds.contains p))).map
    (renderStaticPage o pageContextNeeded par allPageIds pageRoutes)

/-- Collects the documents, render calls and warnings of the static phase. -/
def staticPhase (o : Oracles) (pageContextNeeded par : Bool)
    (allPageIds : List String) (pageRoutes : List (String × PageRouteVal))
    (renderedIds : List String) :
    List HtmlDocument × List RenderCall × List PWarning :=
  let results := staticPhaseResults o pageContextNeeded par allPageIds
    pageRoutes renderedIds
  (results.filterMap (fun r => r.1.map Prod.snd),
   results.filterMap (fun r => r.1.map Prod.fst),
   (results.map Prod.snd).flatten)

/-- Embeds the static 404 fallback of `prerender` (prerender.ts, lines
283-290): when no document so far has URL `/404`, `renderStatic404Page` is
consulted (second component `true`), and a produced result is appended as one
document with no serialized pageContext and `doNotCreateExtraDirectory` set. -/
def addFallback404 (renderStatic404Result : Option String)
    (docs : List HtmlDocument) : List HtmlDocument × Bool :=
  match docs.find? (fun d => d.url == "/404") with
  | some _ => (docs, false)
  | none =>
    match renderStatic404Result with
    | some h => (docs ++ [⟨"/404", h, none, true⟩], true)
    | none => (docs, true)

/-- Modelled from the spec: `getFileUrl` lives in `./utils`, which is not in
the provided sources.  Spec section 6, prerender output layout: for URL `/x/y`
the document path is of the `/x/y/index.html` form, or `/x/y.html` when
`doNotCreateExtraDirectory` is set; the sidecar uses the equivalent path with
the `.pageContext.json` file extension. -/
def getFileUrl (url : String) (fileExtension : String)
    (doNotCreateExtraDirectory : Bool) : String :=
  if doNotCreateExtraDirectory then url ++ fileExtension
  else (if url == "/" then "" else url) ++ "/index" ++ fileExtension

/-- One file write of the write phase. -/
structure WriteCall where
  fileUrl : String
  fileContent : String

/-- The file writes `writeHtmlDocument` issues for one document: the `.html`
file always, the `.pageContext.json` sidecar only when the serialized
pageContext is not null. -/
def writeDocCalls (d : HtmlDocument) : List WriteCall :=
  ⟨getFileUrl d.url ".html" d.doNotCreateExtraDirectory, d.htmlDocument⟩ ::
  (match d.pageContextSerialized with
   | some s => [⟨getFileUrl d.url ".pageContext.json" d.doNotCreateExtraDirectory, s⟩]
   | none => [])

/-- All writes of the write phase, in document order. -/
def writePhase (docs : List HtmlDocument) : List WriteCall :=
  (docs.map writeDocCalls).flatten

/-- The parsed content of `dist/client/vite-plugin-ssr.json` as recorded on
disk by the build. -/
structure ManifestContent where
  version : String
  base : String
  doesClientSideRouting : Bool

/-- The value `getPluginManifest` returns. -/
structure PluginManifest where
  version : String
  base : String
  doesClientSideRouting : Bool

/-- Embeds `getPluginManifest` (prerender.ts, lines 380-401).  A missing
manifest file yields `none`.  Note that the source line
`const pluginManifest = \x7b version, base, doesClientSideRouting \x7d` takes
`version` from the package import, not from the manifest file content, which
is reproduced faithfully here. -/
def getPluginManifest (runningVersion root : String)
    (manifestFile : Option ManifestContent) :
    Option PluginManifest × String :=
  let pluginManifestPath := root ++ "/dist/client/vite-plugin-ssr.json"
  match manifestFile with
  | none => (none, pluginManifestPath)
  | some m =>
    (some ⟨runningVersion, m.base, m.doesClientSideRouting⟩, pluginManifestPath)

/-- The observable side effects of a prerender run, in program order. -/
inductive Effect where
  | setSsrEnvEffect
  | enumeratePagesEffect
  | invokeHookEffect (sourceFile : String)
  | renderPageEffect (pageId url : String)
  | writeFileEffect (fileUrl : String)

/-- Whether an effect is a document-file write. -/
def Effect.isWrite : Effect → Bool
  | .writeFileEffect _ => true
  | _ => false

/-- Everything a successful prerender run produced. -/
structure PrerenderOutput where
  htmlDocuments : List HtmlDocument
  renderCalls : List RenderCall
  warnings : List PWarning
  writeCalls : List WriteCall
  fallback404Attempted : Bool

/-- Embeds `prerender` (prerender.ts, lines 146-298) end to end: manifest
checks, SSR environment setup, page enumeration, the hook phase, the
render-hook-URLs phase, the static-route phase, the 404 fallback and the
sequential write phase.  The first component is the effect trace in program
order; an error carries the effects performed up to the failure point. -/
def prerender (runningVersion root : String) (par : Bool)
    (manifestFile : Option ManifestContent) (pageIdsRaw : List String)
    (pageRoutes : List (String × PageRouteVal)) (hooks : List Hook)
    (o : Oracles) : List Effect × Except Err PrerenderOutput :=
  let gm := getPluginManifest runningVersion root manifestFile
  match gm.1 with
  | none => ([], .error (.usageManifestMissing gm.2))
  | some pm =>
    if pm.version == runningVersion then
      let pageContextNeeded := pm.doesClientSideRouting
      let effs0 : List Effect := [.setSsrEnvEffect, .enumeratePagesEffect]
      let allPageIds := pageIdsRaw.filter (fun p => !(o.isErrorPageFn p))
      let hookEffs := hooks.map (fun h => Effect.invokeHookEffect h.filePath)
      match buildPrerenderData hooks with
      | .error e => (effs0 ++ hookEffs, .error e)
      | .ok data =>
        match renderHookUrlsGo o pageContextNeeded allPageIds data with
        | .error e => (effs0 ++ hookEffs, .error e)
        | .ok (docs1, calls1, renderedIds) =>
          let st := staticPhase o pageContextNeeded par allPageIds pageRoutes
            renderedIds
          let fb := addFallback404 o.renderStatic404 (docs1 ++ st.1)
          let writes := writePhase fb.1
          (effs0 ++ hookEffs
            ++ (calls1 ++ st.2.1).map (fun c => Effect.renderPageEffect c.pageId c.url)
            ++ writes.map (fun w => Effect.writeFileEffect w.fileUrl),
           .ok ⟨fb.1, calls1 ++ st.2.1, st.2.2, writes, fb.2⟩)
    else ([], .error (.usageVersionMismatch pm.version runningVersion))

/-- The file kinds a document write can touch. -/
inductive FileKind where
  | html
  | pageContextJson
deriving DecidableEq

/-- A begin/end event of one file write of the write phase; `doc` is the
position of the document in the produced `htmlDocuments` list. -/
inductive WEvent where
  | wbegin (doc : Nat) (kind : FileKind)
  | wend (doc : Nat) (kind : FileKind)
deriving DecidableEq

/-- The document a write event belongs to. -/
def WEvent.docIdx : WEvent → Nat
  | .wbegin i _ => i
  | .wend i _ => i

/-- The event trace of one `write(...)` call of document `i`. -/
def writeTrace (i : Nat) (kind : FileKind) : List WEvent :=
  [.wbegin i kind, .wend i kind]

/-- `Interleaving xs ys zs` holds when `zs` is an order-preserving merge of
`xs` and `ys`: the schedules the event loop can produce for two concurrently
awaited tasks with traces `xs` and `ys`. -/
inductive Interleaving {α : Type} : List α → List α → List α → Prop where
  | nil : Interleaving [] [] []
  | left {x : α} {xs ys zs : List α} :
      Interleaving xs ys zs → Interleaving (x :: xs) ys (x :: zs)
  | right {y : α} {xs ys zs : List α} :
      Interleaving xs ys zs → Interleaving xs (y :: ys) (y :: zs)

/-- The possible event traces of `writeHtmlDocument` (prerender.ts, lines
300-311) for the document at position `i`: the `.html` write alone when the
serialized pageContext is null, otherwise `Promise.all` runs the `.html` and
`.pageContext.json` writes concurrently, admitting every interleaving. -/
inductive DocWriteTrace : Nat → HtmlDocument → List WEvent → Prop where
  | noSidecar {i : Nat} {d : HtmlDocument} :
      d.pageContextSerialized = none →
      DocWriteTrace i d (writeTrace i .html)
  | withSidecar {i : Nat} {d : HtmlDocument} {s : String} {t : List WEvent} :
      d.pageContextSerialized = some s →
      Interleaving (writeTrace i .html) (writeTrace i .pageContextJson) t →
      DocWriteTrace i d t

/-- The possible event traces of the write loop of `prerender` (prerender.ts,
lines 294-297): `for (const htmlDoc of htmlDocuments) await
writeHtmlDocument(htmlDoc, root)` awaits each document's writes to completion
before starting the next document, so the trace is the concatenation of the
per-document traces. -/
inductive WritePhaseTrace : Nat → List HtmlDocument → List WEvent → Prop where
  | nil {i : Nat} : WritePhaseTrace i [] []
  | cons {i : Nat} {d : HtmlDocument} {ds : List HtmlDocument}
      {t ts : List WEvent} :
      DocWriteTrace i d t → WritePhaseTrace (i + 1) ds ts →
      WritePhaseTrace i (d :: ds) (t ++ ts)

/-- Embeds `getPageById` (getPage.ts, lines 88-100): the loaded module's
exports must expose a `Page` named export or a `default` export, otherwise the
UsageError names the page file; the returned value is
`fileExports.Page || fileExports.default`. -/
def getPageById (filePath : String) (fileExports : Obj) : Except Err JSVal :=
  if (assocLookup fileExports "Page").isSome
      || (assocLookup fileExports "default").isSome then
    .ok (jsOr (getProp fileExports "Page") (getProp fileExports "default"))
  else .error (.usageNoPageExport filePath)

/-- Written from the amended claim for C4 (the success side of the
static-enumeration hook contract): an element is valid when it is a bare
string, or a plain object whose `url` is a string starting with `/`, which
carries no key other than `url` and `pageContext`, and whose `pageContext`,
when present, is null or a plain object. -/
def validPrerenderElement : JSVal → Bool
  | .vstr _ => true
  | .vobj fields =>
    (match assocLookup fields "url" with
     | some (.vstr u) => strStartsWith u "/"
     | _ => false)
    && (fields.map Prod.fst).all (fun k => k == "url" || k == "pageContext")
    && (match assocLookup fields "pageContext" with
        | none => true
        | some .vnull => true
        | some (.vobj _) => true
        | some _ => false)
  | _ => false

/-- Written from the amended claim for C4: a hook return value normalizes
successfully when it is a valid element or an array of valid elements. -/
def validPrerenderValue : JSVal → Bool
  | .varr xs => xs.all validPrerenderElement
  | v => validPrerenderElement v

/-- Concrete collaborators for the evaluations below: every URL routes to page
`p1` with no addendum, rendering yields a fixed document with no serialized
pageContext, there is no static-404 render result, no error page. -/
def constOracles : Oracles :=
  { route := fun _ _ _ => some ⟨"p1", []⟩,
    prerenderPageFn := fun _ _ _ _ _ => ⟨"<html>", none⟩,
    renderStatic404 := none,
    fsRoute := fun pageId _ => "/" ++ pageId,
    isErrorPageFn := fun _ => false }

/-- Concrete collaborators whose route resolver matches no URL. -/
def noRouteOracles : Oracles :=
  { route := fun _ _ _ => none,
    prerenderPageFn := fun _ _ _ _ _ => ⟨"<html>", none⟩,
    renderStatic404 := none,
    fsRoute := fun pageId _ => "/" ++ pageId,
    isErrorPageFn := fun _ => false }

/-- A hook whose two entries target the same URL with different pageContext
keys (the C1 failing input). -/
def hookC1 : Hook :=
  ⟨"moviesPage", "/pages/movies.page.server.js",
    .varr [.vobj [("url", .vstr "/a"), ("pageContext", .vobj [("a", .vnum 1)])],
           .vobj [("url", .vstr "/a"), ("pageContext", .vobj [("b", .vnum 2)])]]⟩

/-- A hook whose first entry supplies an explicitly empty pageContext object
and whose second entry (a bare string) omits it (the C2 failing input). -/
def hookC2 : Hook :=
  ⟨"p1", "/pages/a.page.server.js",
    .varr [.vobj [("url", .vstr "/a"), ("pageContext", .vobj [])], .vstr "/a"]⟩

/-- A hook with a single entry supplying an explicitly empty pageContext. -/
def hookC2single : Hook :=
  ⟨"p1", "/pages/a.page.server.js",
    .vobj [("url", .vstr "/b"), ("pageContext", .vobj [])]⟩

/-- A hook declaring a URL that no page route matches (the C3 witness). -/
def hookC3 : Hook :=
  ⟨"p1", "/pages/b.page.server.js", .vstr "/bogus"⟩

/-- C1: the spec requires that when the same URL is produced by several
normalized entries, the merged record accumulates the pageContext
contributions of all of them, earlier keys surviving unless a later entry
overrides them.  The code instead re-initializes the record on every entry
(its guard tests the literal key `'url' in prerenderData`, not the `url`
variable, and such a key never exists since all URLs start with `/`), so the
earlier contribution is discarded wholesale: for `hookC1`, whose two entries
both target `/a`, the merged pageContext keeps only `b` and the earlier key
`a` is gone. -/
theorem c1_merge_discards_earlier_contributions :
    buildPrerenderData [hookC1]
      = .ok [("/a", ⟨"/pages/movies.page.server.js", [("b", .vnum 2)], false⟩)] ∧
    (buildPrerenderData [hookC1]).map
        (fun d => (assocLookup d "/a").map
          (fun e => (assocLookup e.pageContext "a", assocLookup e.pageContext "b")))
      = .ok (some (none, some (.vnum 2))) :=
  ⟨rfl, rfl⟩

/-- C2: the spec requires the flag passed to `prerenderPage` to be true
exactly when some contributing entry supplied explicit (non-null) pageContext.
Because the code re-initializes the record on every entry (the literal `'url'`
key test), the flag reflects only the last contributing entry: for `hookC2`
the first entry supplies an explicitly empty pageContext object, the second (a
bare string) omits it, and the flag passed to `prerenderPage` is `false` (the
fourth field of the recorded call).  The last conjunct shows the nearby
correct behavior: a single entry with an explicitly empty pageContext object
does count as supplied. -/
theorem c2_flag_reflects_last_entry_only :
    normalizePrerenderResult hookC2.result hookC2.filePath
      = .ok [⟨"/a", some []⟩, ⟨"/a", none⟩] ∧
    buildPrerenderData [hookC2]
      = .ok [("/a", ⟨"/pages/a.page.server.js", [], true⟩)] ∧
    renderHookUrlsGo constOracles true ["p1"]
        [("/a", ⟨"/pages/a.page.server.js", [], true⟩)]
      = .ok ([⟨"/a", "<html>", none, false⟩],
          [⟨"p1", [], "/a", false, true⟩], ["p1"]) ∧
    buildPrerenderData [hookC2single]
      = .ok [("/b", ⟨"/pages/a.page.server.js", [], false⟩)] :=
  ⟨rfl, rfl, rfl, rfl⟩

/-- C7: the manifest-missing half of the claim holds (a missing build manifest
aborts with a UsageError naming the manifest path before any effect), but the
version-mismatch half does not: `getPluginManifest` rebuilds the returned
record with the running package version instead of the version recorded in
the manifest file, so the version equality `assertUsage` is tautological, and
a run whose manifest records the different version `0.0.1` under running
version `0.1.0` proceeds without error. -/
theorem c7_manifest_checks_divergence :
    prerender "0.1.0" "/proj" false none [] [] [] constOracles
      = ([], .error (.usageManifestMissing "/proj/dist/client/vite-plugin-ssr.json")) ∧
    ("0.0.1" : String) ≠ "0.1.0" ∧
    exceptOk (prerender "0.1.0" "/proj" false (some ⟨"0.0.1", "/", false⟩)
        [] [] [] constOracles).2 = true :=
  ⟨rfl, by decide, rfl⟩

/-- C4 counterexample: the claim states that normalization raises a UsageError
when the url does not start with `/`, but for a bare string the code performs
no slash check at all: `"foo"` is accepted and normalizes to a
pageContext-absent entry carrying the slash-less url. -/
theorem c4_counterexample_bare_string_without_slash :
    normalizePrerenderResult (.vstr "foo") "/pages/a.page.server.js"
      = .ok [⟨"foo", none⟩] ∧
    strStartsWith "foo" "/" = false :=
  ⟨rfl, rfl⟩

/-- C9: `getPageById` raises the UsageError naming the page file path exactly
when the loaded module's exports expose neither a `Page` named export nor a
`default` export; when at least one is present it returns a page value without
error, and any error it ever raises is that one. -/
theorem c9_getPageById_export_requirement (filePath : String) (fileExports : Obj) :
    (getPageById filePath fileExports = .error (.usageNoPageExport filePath)
      ↔ (assocLookup fileExports "Page" = none
          ∧ assocLookup fileExports "default" = none)) ∧
    ((assocLookup fileExports "Page").isSome
        ∨ (assocLookup fileExports "default").isSome →
      ∃ pageValue, getPageById filePath fileExports = .ok pageValue) ∧
    (∀ e : Err, getPageById filePath fileExports = .error e
      → e = .usageNoPageExport filePath) := by
  cases hP : assocLookup fileExports "Page" with
  | some pv =>
    refine ⟨?_, fun _ =>
      ⟨jsOr (getProp fileExports "Page") (getProp fileExports "default"),
        by simp [getPageById, hP]⟩, fun e he => ?_⟩
    · simp [getPageById, hP]
    · simp [getPageById, hP] at he
  | none =>
    cases hD : assocLookup fileExports "default" with
    | some dv =>
      refine ⟨?_, fun _ =>
        ⟨jsOr (getProp fileExports "Page") (getProp fileExports "default"),
          by simp [getPageById, hP, hD]⟩, fun e he => ?_⟩
      · simp [getPageById, hP, hD]
      · simp [getPageById, hP, hD] at he
    | none =>
      refine ⟨?_, fun habs => ?_, fun e he => ?_⟩
      · simp [getPageById, hP, hD]
      · rcases habs with h1 | h1 <;> simp [hP, hD] at h1
      · simp [getPageById, hP, hD] at he
        exact he.symm

/-- C9 witness: with a `Page` export present `getPageById` succeeds; with an
empty exports object it raises the UsageError naming the file. -/
theorem c9_getPageById_export_requirement_witness :
    (∃ pageValue, getPageById "/pages/a.page.js" [("Page", JSVal.vstr "P")]
      = .ok pageValue) ∧
    getPageById "/pages/b.page.js" []
      = .error (.usageNoPageExport "/pages/b.page.js") :=
  ⟨(c9_getPageById_export_requirement "/pages/a.page.js"
      [("Page", JSVal.vstr "P")]).2.1 (Or.inl rfl),
   (c9_getPageById_export_requirement "/pages/b.page.js" []).1.mpr ⟨rfl, rfl⟩⟩

/-- C10: when the `Page` named export is present and truthy, `getPageById`
returns it, not the default export; the default export value is returned
exactly when the `Page` export is absent or falsy. -/
theorem c10_page_export_precedence (filePath : String) (fileExports : Obj) :
    (∀ pv, assocLookup fileExports "Page" = some pv → truthy pv = true →
      getPageById filePath fileExports = .ok pv) ∧
    (∀ pv, assocLookup fileExports "Page" = some pv → truthy pv = false →
      getPageById filePath fileExports = .ok (getProp fileExports "default")) ∧
    (∀ dv, assocLookup fileExports "Page" = none →
        assocLookup fileExports "default" = some dv →
      getPageById filePath fileExports = .ok dv) := by
  refine ⟨fun pv hpv htr => ?_, fun pv hpv htr => ?_, fun dv hpn hdv => ?_⟩
  · simp [getPageById, getProp, jsOr, hpv, htr]
  · simp [getPageById, getProp, jsOr, hpv, htr]
  · simp [getPageById, getProp, jsOr, hpn, hdv, truthy]

/-- C10 witness: with both exports present the truthy `Page` export wins; with
a falsy `Page` export the default export is returned instead. -/
theorem c10_page_export_precedence_witness :
    getPageById "/p.page.js" [("Page", JSVal.vstr "P"), ("default", JSVal.vstr "D")]
      = .ok (JSVal.vstr "P") ∧
    getPageById "/p.page.js" [("Page", JSVal.vbool false), ("default", JSVal.vstr "D")]
      = .ok (JSVal.vstr "D") :=
  ⟨(c10_page_export_precedence "/p.page.js"
      [("Page", JSVal.vstr "P"), ("default", JSVal.vstr "D")]).1 _ rfl rfl,
   (c10_page_export_precedence "/p.page.js"
      [("Page", JSVal.vbool false), ("default", JSVal.vstr "D")]).2.1 _ rfl rfl⟩

/-- C5: every registered non-error page not rendered by the hook phase goes
through `renderStaticPage` (first conjunct), which renders it at its
filesystem-derived URL when it has no explicit route definition, at the route
string itself when that string is static, and otherwise skips it, emitting the
non-static-route warning exactly when the `partial` option is false. -/
theorem c5_static_route_phase (o : Oracles) (pageContextNeeded par : Bool)
    (allPageIds : List String) (pageRoutes : List (String × PageRouteVal))
    (renderedIds : List String) (pageId : String) :
    (pageId ∈ allPageIds → renderedIds.contains pageId = false →
      renderStaticPage o pageContextNeeded par allPageIds pageRoutes pageId
        ∈ staticPhaseResults o pageContextNeeded par allPageIds pageRoutes
            renderedIds) ∧
    (assocLookup pageRoutes pageId = none →
      ∃ c d, renderStaticPage o pageContextNeeded par allPageIds pageRoutes pageId
          = (some (c, d), [])
        ∧ d.url = o.fsRoute pageId allPageIds
        ∧ c.url = o.fsRoute pageId allPageIds) ∧
    (∀ r, assocLookup pageRoutes pageId = some (.routeString r) →
        isStaticRoute r = true →
      ∃ c d, renderStaticPage o pageContextNeeded par allPageIds pageRoutes pageId
          = (some (c, d), []) ∧ d.url = r ∧ c.url = r) ∧
    (∀ r, assocLookup pageRoutes pageId = some (.routeString r) →
        isStaticRoute r = false →
      renderStaticPage o pageContextNeeded par allPageIds pageRoutes pageId
        = (none, if par then [] else [.nonStaticRoute pageId])) ∧
    (assocLookup pageRoutes pageId = some .routeFunction →
      renderStaticPage o pageContextNeeded par allPageIds pageRoutes pageId
        = (none, if par then [] else [.nonStaticRoute pageId])) := by
  refine ⟨fun hmem hnc => ?_, fun hr => ?_, fun r hr hst => ?_,
    fun r hr hst => ?_, fun hr => ?_⟩
  · exact List.mem_map_of_mem _
      (List.mem_filter.mpr ⟨hmem, by rw [hnc]; rfl⟩)
  · unfold renderStaticPage
    rw [hr]
    exact ⟨_, _, rfl, rfl, rfl⟩
  · unfold renderStaticPage
    rw [hr]
    simp only [hst, if_true]
    exact ⟨_, _, rfl, rfl, rfl⟩
  · unfold renderStaticPage
    rw [hr]
    simp only [hst, if_false, Bool.false_eq_true]
  · unfold renderStaticPage
    rw [hr]

/-- C5 witness: a page with no explicit route definition is rendered at its
filesystem route; an uncovered route-function page with `partial` set emits no
warning. -/
theorem c5_static_route_phase_witness :
    (∃ c d, renderStaticPage constOracles false false ["p1"] [] "p1"
        = (some (c, d), [])
      ∧ d.url = constOracles.fsRoute "p1" ["p1"]
      ∧ c.url = constOracles.fsRoute "p1" ["p1"]) ∧
    renderStaticPage constOracles false true ["p1"] [("p1", .routeFunction)] "p1"
      = (none, []) :=
  ⟨(c5_static_route_phase constOracles false false ["p1"] [] [] "p1").2.1 rfl,
   (c5_static_route_phase constOracles false true ["p1"]
      [("p1", .routeFunction)] [] "p1").2.2.2.2 rfl⟩

/-- C6: the static 404 fallback is consulted exactly when no document so far
has URL `/404`; a produced fallback appends exactly one document with URL
`/404`, no serialized pageContext sidecar and `doNotCreateExtraDirectory` set,
whose write phase produces the single `/404.html` path-form write; when a
`/404` document already exists the document list is unchanged. -/
theorem c6_static_404_fallback (renderStatic404Result : Option String)
    (docs : List HtmlDocument) :
    ((addFallback404 renderStatic404Result docs).2 = true
      ↔ ∀ d ∈ docs, d.url ≠ "/404") ∧
    (∀ h404 : String, (∀ d ∈ docs, d.url ≠ "/404") →
        renderStatic404Result = some h404 →
      (addFallback404 renderStatic404Result docs).1
        = docs ++ [⟨"/404", h404, none, true⟩]) ∧
    ((∃ d ∈ docs, d.url = "/404") →
      (addFallback404 renderStatic404Result docs).1 = docs) ∧
    (∀ h404 : String,
      writeDocCalls ⟨"/404", h404, none, true⟩ = [⟨"/404.html", h404⟩]) := by
  refine ⟨?_, ?_, ?_, fun h404 => rfl⟩
  · cases hf : docs.find? (fun d => d.url == "/404") with
    | some d =>
      have hp := List.find?_some hf
      have hm := List.mem_of_find?_eq_some hf
      simp only [beq_iff_eq] at hp
      constructor
      · intro habs
        simp [addFallback404, hf] at habs
      · intro hall
        exact absurd hp (hall d hm)
    | none =>
      have hall := List.find?_eq_none.mp hf
      simp only [beq_iff_eq] at hall
      cases renderStatic404Result <;>
        simp [addFallback404, hf] <;> exact hall
  · intro h404 hall heq
    cases hf : docs.find? (fun d => d.url == "/404") with
    | some d =>
      have hp := List.find?_some hf
      have hm := List.mem_of_find?_eq_some hf
      simp only [beq_iff_eq] at hp
      exact absurd hp (hall d hm)
    | none =>
      subst heq
      simp [addFallback404, hf]
  · rintro ⟨d, hd, hurl⟩
    cases hf : docs.find? (fun d => d.url == "/404") with
    | some d2 => simp [addFallback404, hf]
    | none =>
      have hall := List.find?_eq_none.mp hf
      exact absurd (by simpa using hurl) (by simpa using hall d hd)

/-- C6 witness: with no `/404` document produced, the fallback is attempted
and appends the single extra `/404` document written at the `/404.html` form. -/
theorem c6_static_404_fallback_witness :
    (addFallback404 (some "<h>") []).2 = true ∧
    (addFallback404 (some "<h>") []).1 = [] ++ [⟨"/404", "<h>", none, true⟩] ∧
    writeDocCalls ⟨"/404", "<h>", none, true⟩ = [⟨"/404.html", "<h>"⟩] :=
  ⟨(c6_static_404_fallback (some "<h>") []).1.mpr (by simp),
   (c6_static_404_fallback (some "<h>") []).2.1 "<h>" (by simp) rfl,
   (c6_static_404_fallback (some "<h>") []).2.2.2 "<h>"⟩

/-- When some entry of `prerenderData` has a URL the route resolver matches to
no page, the render-hook-URLs phase fails with the `usageRouteMismatch`
UsageError carrying the recorded hook source file of a failing entry. -/
theorem renderHookUrlsGo_routeMismatch (o : Oracles) (pageContextNeeded : Bool)
    (allPageIds : List String) :
    ∀ data : PrerenderData,
      (∃ p ∈ data, o.route p.1 allPageIds p.2.pageContext = none) →
      ∃ u e, (u, e) ∈ data ∧ o.route u allPageIds e.pageContext = none ∧
        renderHookUrlsGo o pageContextNeeded allPageIds data
          = .error (.usageRouteMismatch e.prerenderSourceFile u) := by
  intro data
  induction data with
  | nil =>
    rintro ⟨p, hp, _⟩
    cases hp
  | cons hd tl ih =>
    rintro ⟨p, hp, hroute⟩
    obtain ⟨url, e⟩ := hd
    by_cases hh : o.route url allPageIds e.pageContext = none
    · exact ⟨url, e, List.mem_cons_self _ _, hh,
        by simp [renderHookUrlsGo, hh]⟩
    · rcases List.mem_cons.mp hp with rfl | hmem
      · exact absurd hroute hh
      · obtain ⟨u, e2, hmem2, hr2, heq⟩ := ih ⟨p, hmem, hroute⟩
        refine ⟨u, e2, List.mem_cons_of_mem _ hmem2, hr2, ?_⟩
        cases hrr : o.route url allPageIds e.pageContext with
        | none => exact absurd hrr hh
        | some rr => simp [renderHookUrlsGo, hrr, heq]

/-- C3: when any prerender-hook-declared URL matches no registered page, the
whole prerender run results in the `usageRouteMismatch` UsageError carrying
the offending entry's recorded hook source file, and the effect trace contains
no document-file write (the sequential write phase is never reached). -/
theorem c3_route_mismatch_aborts (runningVersion root : String) (par : Bool)
    (m : ManifestContent) (pageIdsRaw : List String)
    (pageRoutes : List (String × PageRouteVal)) (hooks : List Hook)
    (o : Oracles) (data : PrerenderData)
    (hdata : buildPrerenderData hooks = .ok data)
    (hfail : ∃ p ∈ data,
      o.route p.1 (pageIdsRaw.filter (fun q => !(o.isErrorPageFn q)))
        p.2.pageContext = none) :
    ∃ u e, (u, e) ∈ data ∧
      o.route u (pageIdsRaw.filter (fun q => !(o.isErrorPageFn q)))
        e.pageContext = none ∧
      (prerender runningVersion root par (some m) pageIdsRaw pageRoutes hooks o).2
        = .error (.usageRouteMismatch e.prerenderSourceFile u) ∧
      isUsageError (.usageRouteMismatch e.prerenderSourceFile u) = true ∧
      ∀ eff ∈ (prerender runningVersion root par (some m) pageIdsRaw pageRoutes
          hooks o).1, eff.isWrite = false := by
  obtain ⟨u, e, hmem, hr, heq⟩ :=
    renderHookUrlsGo_routeMismatch o m.doesClientSideRouting
      (pageIdsRaw.filter (fun q => !(o.isErrorPageFn q))) data hfail
  have hrun : prerender runningVersion root par (some m) pageIdsRaw pageRoutes
      hooks o
      = ([Effect.setSsrEnvEffect, Effect.enumeratePagesEffect]
          ++ hooks.map (fun h => Effect.invokeHookEffect h.filePath),
        .error (.usageRouteMismatch e.prerenderSourceFile u)) := by
    unfold prerender getPluginManifest
    simp only [beq_self_eq_true, if_true, hdata, heq]
  refine ⟨u, e, hmem, hr, by rw [hrun], rfl, ?_⟩
  rw [hrun]
  intro eff heff
  rcases List.mem_append.mp heff with h1 | h2
  · simp only [List.mem_cons, List.not_mem_nil, or_false] at h1
    rcases h1 with rfl | rfl <;> rfl
  · obtain ⟨hk, _, rfl⟩ := List.mem_map.mp h2
    rfl

/-- C3 witness: a hook returning the unroutable URL `/bogus` makes the
concrete prerender run abort with the UsageError naming the hook's source
file, with no write effect. -/
theorem c3_route_mismatch_aborts_witness :
    buildPrerenderData [hookC3]
      = .ok [("/bogus", ⟨"/pages/b.page.server.js", [], true⟩)] ∧
    ∃ u e,
      (u, e) ∈ [("/bogus", (⟨"/pages/b.page.server.js", [], true⟩ : DataEntry))] ∧
      noRouteOracles.route u
        (["p1"].filter (fun q => !(noRouteOracles.isErrorPageFn q)))
        e.pageContext = none ∧
      (prerender "0.1.0" "/proj" false (some ⟨"0.1.0", "/", false⟩) ["p1"] []
          [hookC3] noRouteOracles).2
        = .error (.usageRouteMismatch e.prerenderSourceFile u) ∧
      isUsageError (.usageRouteMismatch e.prerenderSourceFile u) = true ∧
      ∀ eff ∈ (prerender "0.1.0" "/proj" false (some ⟨"0.1.0", "/", false⟩)
          ["p1"] [] [hookC3] noRouteOracles).1, eff.isWrite = false :=
  ⟨rfl,
   c3_route_mismatch_aborts "0.1.0" "/proj" false ⟨"0.1.0", "/", false⟩ ["p1"]
     [] [hookC3] noRouteOracles
     [("/bogus", ⟨"/pages/b.page.server.js", [], true⟩)] rfl
     ⟨("/bogus", ⟨"/pages/b.page.server.js", [], true⟩),
       List.mem_singleton.mpr rfl, rfl⟩⟩

/-- Every element of an interleaving comes from one of the two merged lists. -/
theorem interleaving_mem {α : Type} {xs ys zs : List α}
    (h : Interleaving xs ys zs) : ∀ e ∈ zs, e ∈ xs ∨ e ∈ ys := by
  induction h with
  | nil => intro e he; cases he
  | left h ih =>
    intro e he
    rcases List.mem_cons.mp he with rfl | hm
    · exact Or.inl (List.mem_cons_self _ _)
    · rcases ih e hm with h1 | h1
      · exact Or.inl (List.mem_cons_of_mem _ h1)
      · exact Or.inr h1
  | right h ih =>
    intro e he
    rcases List.mem_cons.mp he with rfl | hm
    · exact Or.inr (List.mem_cons_self _ _)
    · rcases ih e hm with h1 | h1
      · exact Or.inl h1
      · exact Or.inr (List.mem_cons_of_mem _ h1)

/-- Every event of one document's write trace carries that document's index. -/
theorem docWriteTrace_docIdx {i : Nat} {d : HtmlDocument} {t : List WEvent}
    (h : DocWriteTrace i d t) : ∀ e ∈ t, e.docIdx = i := by
  cases h with
  | noSidecar _ =>
    intro e he
    simp only [writeTrace, List.mem_cons, List.not_mem_nil, or_false] at he
    rcases he with rfl | rfl <;> rfl
  | withSidecar _ hint =>
    intro e he
    rcases interleaving_mem hint e he with h1 | h1 <;>
      (simp only [writeTrace, List.mem_cons, List.not_mem_nil, or_false] at h1;
        rcases h1 with rfl | rfl <;> rfl)

/-- Every event of a write-phase trace starting at document index `i` carries
an index of at least `i`. -/
theorem writePhaseTrace_lowerBound {i : Nat} {ds : List HtmlDocument}
    {tr : List WEvent} (h : WritePhaseTrace i ds tr) :
    ∀ e ∈ tr, i ≤ e.docIdx := by
  induction h with
  | nil => intro e he; cases he
  | cons hd htl ih =>
    intro e he
    rcases List.mem_append.mp he with h1 | h2
    · exact le_of_eq (docWriteTrace_docIdx hd e h1).symm
    · exact Nat.le_of_succ_le (ih e h2)

/-- In every write-phase trace, document indices appear in nondecreasing
order: all writes of an earlier document precede all writes of a later one. -/
theorem writePhaseTrace_pairwise {i : Nat} {ds : List HtmlDocument}
    {tr : List WEvent} (h : WritePhaseTrace i ds tr) :
    tr.Pairwise (fun a b => a.docIdx ≤ b.docIdx) := by
  induction h with
  | nil => exact List.Pairwise.nil
  | cons hd htl ih =>
    refine List.pairwise_append.mpr ⟨?_, ih, ?_⟩
    · refine List.pairwise_of_forall_mem_list fun a ha b hb => ?_
      rw [docWriteTrace_docIdx hd a ha, docWriteTrace_docIdx hd b hb]
    · intro a ha b hb
      rw [docWriteTrace_docIdx hd a ha]
      exact Nat.le_of_succ_le (writePhaseTrace_lowerBound htl b hb)

/-- C8: in every schedule of the write phase, the events are sorted by
document index, so for any pair of documents all file writes (begins and ends)
of the earlier one precede every write of the later one; within one document
the schedule admitting both begins before both ends shows the `.html` and
`.pageContext.json` files of a single document may be written concurrently. -/
theorem c8_writes_serialized_across_documents (docs : List HtmlDocument)
    (tr : List WEvent) (h : WritePhaseTrace 0 docs tr) :
    tr.Pairwise (fun a b => a.docIdx ≤ b.docIdx) ∧
    DocWriteTrace 0 ⟨"/a", "<html>", some "ctx", false⟩
      [.wbegin 0 .html, .wbegin 0 .pageContextJson,
        .wend 0 .html, .wend 0 .pageContextJson] :=
  ⟨writePhaseTrace_pairwise h,
   DocWriteTrace.withSidecar rfl
     (Interleaving.left (Interleaving.right
       (Interleaving.left (Interleaving.right Interleaving.nil))))⟩

/-- C8 witness: a concrete one-document write-phase trace exists and its
events are sorted by document index. -/
theorem c8_writes_serialized_across_documents_witness :
    WritePhaseTrace 0 [⟨"/a", "<html>", none, false⟩]
      (writeTrace 0 .html ++ []) ∧
    (writeTrace 0 FileKind.html ++ []).Pairwise
      (fun a b => WEvent.docIdx a ≤ WEvent.docIdx b) :=
  have h : WritePhaseTrace 0 [⟨"/a", "<html>", none, false⟩]
      (writeTrace 0 .html ++ []) :=
    WritePhaseTrace.cons (DocWriteTrace.noSidecar rfl) WritePhaseTrace.nil
  ⟨h, (c8_writes_serialized_across_documents _ _ h).1⟩

/-- Element-wise success of normalization agrees with the amended validity
predicate. -/
theorem normElem_isOk (sourceFile : String) (v : JSVal) :
    exceptOk (normalizePrerenderElement sourceFile v) = validPrerenderElement v := by
  cases v with
  | vstr s => rfl
  | vnum n => rfl
  | vbool b => rfl
  | vnull => rfl
  | vundefined => rfl
  | varr xs => rfl
  | vobj fields =>
    simp only [normalizePrerenderElement, validPrerenderElement]
    cases hurl : assocLookup fields "url" with
    | none => simp [exceptOk]
    | some uv =>
      cases uv with
      | vstr u =>
        by_cases hsl : strStartsWith u "/" = true
        · simp only [hsl, Bool.not_true, Bool.false_eq_true, if_false,
            Bool.true_and]
          cases hk : (fields.map Prod.fst).find?
              (fun k => !(k == "url" || k == "pageContext")) with
          | some k =>
            have hkp := List.find?_some hk
            have hkm := List.mem_of_find?_eq_some hk
            have hfalse : (fields.map Prod.fst).all
                (fun k => k == "url" || k == "pageContext") = false := by
              rcases hb : (fields.map Prod.fst).all
                  (fun k => k == "url" || k == "pageContext") with _ | _
              · rfl
              · have := List.all_eq_true.mp hb _ hkm
                rw [this] at hkp
                cases hkp
            simp [exceptOk, hfalse]
          | none =>
            have hall := List.find?_eq_none.mp hk
            have htrue : (fields.map Prod.fst).all
                (fun k => k == "url" || k == "pageContext") = true := by
              rw [List.all_eq_true]
              intro x hx
              have hnx := hall x hx
              rcases hb : (x == "url" || x == "pageContext") with _ | _
              · rw [hb] at hnx
                exact absurd rfl hnx
              · rfl
            simp only [htrue, Bool.true_and]
            cases hpc : assocLookup fields "pageContext" with
            | none => rfl
            | some pcv => cases pcv <;> rfl
        · rw [Bool.not_eq_true] at hsl
          simp [exceptOk, hsl]
      | vnum n => simp [exceptOk]
      | vbool b => simp [exceptOk]
      | vnull => simp [exceptOk]
      | vundefined => simp [exceptOk]
      | vobj fs => simp [exceptOk]
      | varr xs => simp [exceptOk]

/-- Normalization only ever fails with a UsageError, element-wise. -/
theorem normElem_error_usage (sourceFile : String) (v : JSVal) (e : Err)
    (h : normalizePrerenderElement sourceFile v = .error e) :
    isUsageError e = true := by
  cases v with
  | vstr s => simp [normalizePrerenderElement] at h
  | vnum n =>
    simp only [normalizePrerenderElement, Except.error.injEq] at h
    rw [← h]
    rfl
  | vbool b =>
    simp only [normalizePrerenderElement, Except.error.injEq] at h
    rw [← h]
    rfl
  | vnull =>
    simp only [normalizePrerenderElement, Except.error.injEq] at h
    rw [← h]
    rfl
  | vundefined =>
    simp only [normalizePrerenderElement, Except.error.injEq] at h
    rw [← h]
    rfl
  | varr xs =>
    simp only [normalizePrerenderElement, Except.error.injEq] at h
    rw [← h]
    rfl
  | vobj fields =>
    simp only [normalizePrerenderElement] at h
    repeat' split at h
    all_goals first
      | simp only [reduceCtorEq] at h
      | (simp only [Except.error.injEq] at h; rw [← h]; rfl)

/-- List-wise success of normalization agrees with the amended validity
predicate. -/
theorem normList_isOk (sourceFile : String) (xs : List JSVal) :
    exceptOk (normalizeList sourceFile xs) = xs.all validPrerenderElement := by
  induction xs with
  | nil => rfl
  | cons x xs ih =>
    simp only [normalizeList, List.all_cons]
    have hx := normElem_isOk sourceFile x
    cases hel : normalizePrerenderElement sourceFile x with
    | error e =>
      rw [hel] at hx
      simp [exceptOk, ← hx]
    | ok a =>
      rw [hel] at hx
      cases hls : normalizeList sourceFile xs with
      | error e2 =>
        rw [hls] at ih
        simp [exceptOk, ← hx, ← ih]
      | ok as =>
        rw [hls] at ih
        simp [exceptOk, ← hx, ← ih]

/-- List-wise normalization only ever fails with a UsageError. -/
theorem normList_error_usage (sourceFile : String) (xs : List JSVal) :
    ∀ e : Err, normalizeList sourceFile xs = .error e →
      isUsageError e = true := by
  induction xs with
  | nil =>
    intro e h
    simp [normalizeList] at h
  | cons x xs ih =>
    intro e h
    simp only [normalizeList] at h
    cases hel : normalizePrerenderElement sourceFile x with
    | error e2 =>
      rw [hel] at h
      simp only [Except.error.injEq] at h
      rw [← h]
      exact normElem_error_usage sourceFile x e2 hel
    | ok a =>
      rw [hel] at h
      cases hls : normalizeList sourceFile xs with
      | error e2 =>
        rw [hls] at h
        simp only [Except.error.injEq] at h
        rw [← h]
        exact ih e2 hls
      | ok as =>
        rw [hls] at h
        simp at h

/-- C4 amended: normalization succeeds exactly when the value is a bare string
(regardless of leading slash), a plain object whose `url` is a string starting
with `/`, carrying no key other than `url` and `pageContext`, with
`pageContext` absent, null or a plain object, or an array of such values; a
bare string normalizes to an entry with pageContext recorded as absent; every
failure is a UsageError.  The leading-slash check applies only to the object
form, not to bare strings. -/
theorem c4_normalize_characterization (v : JSVal) (sourceFile : String) :
    exceptOk (normalizePrerenderResult v sourceFile) = validPrerenderValue v ∧
    (∀ s : String,
      normalizePrerenderResult (.vstr s) sourceFile = .ok [⟨s, none⟩]) ∧
    (∀ e : Err, normalizePrerenderResult v sourceFile = .error e →
      isUsageError e = true) := by
  refine ⟨?_, fun s => rfl, ?_⟩
  · cases v with
    | varr xs => exact normList_isOk sourceFile xs
    | vstr s => rfl
    | vnum n =>
      have := normElem_isOk sourceFile (.vnum n)
      simpa [normalizePrerenderResult, validPrerenderValue, exceptOk] using this
    | vbool b =>
      have := normElem_isOk sourceFile (.vbool b)
      simpa [normalizePrerenderResult, validPrerenderValue, exceptOk] using this
    | vnull =>
      have := normElem_isOk sourceFile .vnull
      simpa [normalizePrerenderResult, validPrerenderValue, exceptOk] using this
    | vundefined =>
      have := normElem_isOk sourceFile .vundefined
      simpa [normalizePrerenderResult, validPrerenderValue, exceptOk] using this
    | vobj fields =>
      have hel := normElem_isOk sourceFile (.vobj fields)
      cases h2 : normalizePrerenderElement sourceFile (.vobj fields) with
      | error e =>
        rw [h2] at hel
        simp only [normalizePrerenderResult, h2]
        exact hel
      | ok a =>
        rw [h2] at hel
        simp only [normalizePrerenderResult, h2]
        exact hel
  · intro e he
    cases v with
    | varr xs => exact normList_error_usage sourceFile xs e he
    | vstr s => simp [normalizePrerenderResult, normalizePrerenderElement] at he
    | vnum n =>
      simp only [normalizePrerenderResult] at he
      cases h2 : normalizePrerenderElement sourceFile (.vnum n) with
      | error e2 =>
        rw [h2] at he
        simp only [Except.error.injEq] at he
        rw [← he]
        exact normElem_error_usage sourceFile _ e2 h2
      | ok a =>
        rw [h2] at he
        simp at he
    | vbool b =>
      simp only [normalizePrerenderResult] at he
      cases h2 : normalizePrerenderElement sourceFile (.vbool b) with
      | error e2 =>
        rw [h2] at he
        simp only [Except.error.injEq] at he
        rw [← he]
        exact normElem_error_usage sourceFile _ e2 h2
      | ok a =>
        rw [h2] at he
        simp at he
    | vnull =>
      simp only [normalizePrerenderResult] at he
      cases h2 : normalizePrerenderElement sourceFile .vnull with
      | error e2 =>
        rw [h2] at he
        simp only [Except.error.injEq] at he
        rw [← he]
        exact normElem_error_usage sourceFile _ e2 h2
      | ok a =>
        rw [h2] at he
        simp at he
    | vundefined =>
      simp only [normalizePrerenderResult] at he
      cases h2 : normalizePrerenderElement sourceFile .vundefined with
      | error e2 =>
        rw [h2] at he
        simp only [Except.error.injEq] at he
        rw [← he]
        exact normElem_error_usage sourceFile _ e2 h2
      | ok a =>
        rw [h2] at he
        simp at he
    | vobj fields =>
      simp only [normalizePrerenderResult] at he
      cases h2 : normalizePrerenderElement sourceFile (.vobj fields) with
      | error e2 =>
        rw [h2] at he
        simp only [Except.error.injEq] at he
        rw [← he]
        exact normElem_error_usage sourceFile _ e2 h2
      | ok a =>
        rw [h2] at he
        simp at he

/-- C4 amended witness: an object whose url lacks the leading slash is a
UsageError. -/
theorem c4_normalize_characterization_witness :
    normalizePrerenderResult (.vobj [("url", .vstr "bogus")]) "/f.page.server.js"
      = .error (.usageUrlNoSlash "/f.page.server.js" "bogus") ∧
    isUsageError (.usageUrlNoSlash "/f.page.server.js" "bogus") = true :=
  ⟨rfl,
   (c4_normalize_characterization (.vobj [("url", .vstr "bogus")])
     "/f.page.server.js").2.2 _ rfl⟩

end VPS
